import Mathlib

/-!
Verification of the 2D bin-packing / cutting-stock repository against its
natural-language specification.

Each namespace below is a shallow embedding of one Python source file:

* `GA`      — `src/Genetic_Algorithm.py`
* `BPH`     — `src/bin-packing-handler.py`
* `GCL`     — `src/Glass_Cut_list_optimizer.py`
* `BP2D`    — `src/2D_Bin_Packeging.py` (the pure report aggregation)
* `GCOPT`   — `src/GlassCuttingIO.py` (`GlassCuttingOptimizer.optimize`)
* `HGCO`    — `src/HybridGlassCuttingOptimizer.py`

Numeric conventions.  The Python sources mix `int` and `float` fields; every
dimension, coordinate and area manipulated by the packing control flow is
modelled as `Int`.  All concrete inputs exercised here are integers, and the
only float operations the sources perform on them (addition, multiplication,
comparison) are exact on integral IEEE doubles, so the `Int` model is faithful
for these runs.  Ratios that Python computes by float division and never feeds
back into control flow (efficiency / utilization percentages) are modelled
exactly in `ℚ`.

Python's `list.sort` / `sorted` with `reverse=True` is a stable descending
sort; it is modelled with `List.insertionSort` (stable) using the relation
"key of the left argument is ≥ key of the right argument".

Loops whose termination is not structural (the Python sources contain loops
that can genuinely diverge) take an explicit fuel argument and return
`Option`/`none` when the fuel runs out.
-/

instance {e a : Type} [DecidableEq e] [DecidableEq a] : DecidableEq (Except e a) := fun x y =>
  match x, y with
  | .error e1, .error e2 =>
    if h : e1 = e2 then isTrue (by rw [h]) else isFalse (fun hc => by cases hc; exact h rfl)
  | .ok a1, .ok a2 =>
    if h : a1 = a2 then isTrue (by rw [h]) else isFalse (fun hc => by cases hc; exact h rfl)
  | .error _, .ok _ => isFalse (fun hc => by cases hc)
  | .ok _, .error _ => isFalse (fun hc => by cases hc)

namespace GA

/-- `Part` dataclass of `Genetic_Algorithm.py`. -/
structure Part where
  location : String
  length : Int
  height : Int
  quantity : Int
deriving DecidableEq

/-- `Placement` dataclass of `Genetic_Algorithm.py`. -/
structure Placement where
  part : Part
  x : Int
  y : Int
  rotated : Bool
deriving DecidableEq

/-- A free-space entry `(x, y, length, height)` as stored in
`Sheet.remaining_space`. -/
abbrev Space := Int × Int × Int × Int

/-- `Sheet` class of `Genetic_Algorithm.py`. -/
structure Sheet where
  length : Int
  width : Int
  placements : List Placement
  remaining_space : List Space
deriving DecidableEq

/-- `Sheet.__init__`: fresh sheet with one free region covering it. -/
def Sheet.new (length width : Int) : Sheet :=
  ⟨length, width, [], [(0, 0, length, width)]⟩

/-- `Sheet.add_part`: append the placement and rebuild `remaining_space`
exactly as the Python loop does (including its incomplete intersection test
`x < sx + sl and y < sy + sh`). -/
def Sheet.add_part (s : Sheet) (part : Part) (x y : Int) (rotated : Bool) : Sheet :=
  let actual_length := if rotated then part.height else part.length
  let actual_height := if rotated then part.length else part.height
  let new_remaining := s.remaining_space.flatMap fun sp =>
    let sx := sp.1
    let sy := sp.2.1
    let sl := sp.2.2.1
    let sh := sp.2.2.2
    if x < sx + sl ∧ y < sy + sh then
      (if y > sy then [(sx, sy, sl, y - sy)] else []) ++
      (if y + actual_height < sy + sh then
        [(sx, y + actual_height, sl, sy + sh - (y + actual_height))] else []) ++
      (if x > sx then [(sx, max sy y, x - sx, min sh actual_height)] else []) ++
      (if x + actual_length < sx + sl then
        [(x + actual_length, max sy y, sx + sl - (x + actual_length), min sh actual_height)] else [])
    else [sp]
  { s with placements := s.placements ++ [⟨part, x, y, rotated⟩],
           remaining_space := new_remaining }

/-- One update step of the `find_best_fit` scan: try orientation `rotated` of
`part` in region `sp`, replacing the running best `(position, min_waste)` when
the waste is strictly smaller. -/
def fitStep (part : Part) (rotated : Bool) (sp : Space) (st : Option ((Int × Int × Bool) × Int)) :
    Option ((Int × Int × Bool) × Int) :=
  let pl := if rotated then part.height else part.length
  let ph := if rotated then part.length else part.height
  if pl ≤ sp.2.2.1 ∧ ph ≤ sp.2.2.2 then
    let waste := sp.2.2.1 * sp.2.2.2 - pl * ph
    match st with
    | none => some ((sp.1, sp.2.1, rotated), waste)
    | some (best, min_waste) =>
      if waste < min_waste then some ((sp.1, sp.2.1, rotated), waste) else some (best, min_waste)
  else st

/-- `find_best_fit` of `Genetic_Algorithm.py`: scan regions in ledger order,
orientations `False` then `True`, keep the strictly smallest waste; return
`(-1, -1, False)` when nothing fits. -/
def find_best_fit (sheet : Sheet) (part : Part) : Int × Int × Bool :=
  match sheet.remaining_space.foldl (fun st sp => fitStep part true sp (fitStep part false sp st)) none with
  | some best => best.1
  | none => (-1, -1, false)

/-- Descending-area order used by `parts.sort(key=lambda p: p.length * p.height, reverse=True)`. -/
def areaGe (a b : Part) : Prop := b.length * b.height ≤ a.length * a.height

instance : DecidableRel areaGe := fun _ _ => inferInstanceAs (Decidable (_ ≤ _))

/-- The stable descending-area sort performed at the top of
`optimize_cutting_heuristic`. -/
def sortParts (parts : List Part) : List Part := parts.insertionSort areaGe

/-- The inner `for _ in range(part.quantity)` loop: attempt `n` placements of
`part` on `sheet`, returning the updated sheet and how many were placed. -/
def attemptPlace (sheet : Sheet) (part : Part) : Nat → Sheet × Nat
  | 0 => (sheet, 0)
  | n + 1 =>
    let f := find_best_fit sheet part
    if f.1 ≠ -1 then
      let r := attemptPlace (sheet.add_part part f.1 f.2.1 f.2.2) part n
      (r.1, r.2 + 1)
    else
      attemptPlace sheet part n

/-- The `for part in parts[:]` pass of one outer iteration: place as many
instances of each part as fit, decrement quantities, and drop parts whose
quantity reaches zero (a part whose quantity was already `≤ 0` is kept, as in
Python, because its `range` loop never runs). -/
def packSheetParts : Sheet → List Part → Sheet × List Part
  | sheet, [] => (sheet, [])
  | sheet, part :: rest =>
    let r := attemptPlace sheet part part.quantity.toNat
    let newq := part.quantity - (r.2 : Int)
    let rec' := packSheetParts r.1 rest
    if 0 < part.quantity ∧ newq = 0 then (rec'.1, rec'.2)
    else (rec'.1, { part with quantity := newq } :: rec'.2)

/-- The `while parts:` loop of `optimize_cutting_heuristic`.  Each iteration
opens a fresh sheet of the first stock size.  The Python loop can diverge
(when some part never becomes placeable), hence the fuel; `none` means the
fuel ran out before the loop finished. -/
def heuristicLoop (stock0 : Int × Int) : Nat → List Part → List Sheet → Option (List Sheet)
  | _, [], acc => some acc.reverse
  | 0, _ :: _, _ => none
  | fuel + 1, part :: rest, acc =>
    let r := packSheetParts (Sheet.new stock0.1 stock0.2) (part :: rest)
    heuristicLoop stock0 fuel r.2 (r.1 :: acc)

/-- `optimize_cutting_heuristic` of `Genetic_Algorithm.py` (fuelled).  Python
indexes `stock_sizes[0]` unconditionally, so an empty stock list (an
`IndexError` in Python) is mapped to `none`. -/
def optimize_cutting_heuristic (fuel : Nat) (parts : List Part)
    (stock_sizes : List (Int × Int)) : Option (List Sheet) :=
  match stock_sizes with
  | [] => none
  | s0 :: _ => heuristicLoop s0 fuel (sortParts parts) []

/-- `crossover` of `genetic_heuristic_optimization`: prefix of one parent's
sheet list concatenated with the suffix of the other's. -/
def crossover (parent1 parent2 : List Sheet) : List Sheet :=
  let split := parent1.length / 2
  parent1.take split ++ parent2.drop split

/-- `fitness` of `genetic_heuristic_optimization`: used area over total sheet
area (0 when no sheet area). -/
def fitness (sheets : List Sheet) : ℚ :=
  let total : Int := (sheets.map (fun s => s.length * s.width)).sum
  let used : Int := (sheets.map (fun s => (s.placements.map (fun p => p.part.length * p.part.height)).sum)).sum
  if 0 < total then (used : ℚ) / (total : ℚ) else 0

/-- Effective (axis-aligned) length of a committed placement. -/
def effLength (p : Placement) : Int := if p.rotated then p.part.height else p.part.length

/-- Effective height of a committed placement. -/
def effHeight (p : Placement) : Int := if p.rotated then p.part.length else p.part.height

/-- Two placements overlap when their open placed rectangles intersect. -/
def overlaps (p q : Placement) : Prop :=
  p.x < q.x + effLength q ∧ q.x < p.x + effLength p ∧
  p.y < q.y + effHeight q ∧ q.y < p.y + effHeight p

instance : ∀ p q, Decidable (overlaps p q) := fun _ _ => inferInstanceAs (Decidable (_ ∧ _))

/-- Total number of placements of parts labelled `loc` in a sheet list. -/
def placedCount (sheets : List Sheet) (loc : String) : Nat :=
  (sheets.map (fun s => (s.placements.filter (fun p => p.part.location = loc)).length)).sum

/-- The fit condition tested by `find_best_fit` for orientation `rotated` of
`part` in region `sp`. -/
def fitsP (part : Part) (rotated : Bool) (sp : Space) : Prop :=
  (if rotated then part.height else part.length) ≤ sp.2.2.1 ∧
  (if rotated then part.length else part.height) ≤ sp.2.2.2

instance : ∀ part rotated sp, Decidable (fitsP part rotated sp) :=
  fun _ _ _ => inferInstanceAs (Decidable (_ ∧ _))

/-- The waste `w * h - pl * ph` computed by `find_best_fit`. -/
def wasteOf (part : Part) (rotated : Bool) (sp : Space) : Int :=
  sp.2.2.1 * sp.2.2.2 -
    (if rotated then part.height else part.length) * (if rotated then part.length else part.height)

/-- Waste of a `(region, orientation)` candidate. -/
def candWaste (part : Part) (c : Space × Bool) : Int := wasteOf part c.2 c.1

/-- The `(x, y, rotated)` value `find_best_fit` would return for a candidate. -/
def candProj (c : Space × Bool) : Int × Int × Bool := (c.1.1, c.1.2.1, c.2)

/-- The `(region, orientation)` pairs in the exact order `find_best_fit` scans
them: regions in ledger order, orientation `False` before `True`. -/
def scanPairs (sheet : Sheet) : List (Space × Bool) :=
  sheet.remaining_space.flatMap fun sp => [(sp, false), (sp, true)]

/-- The fitting candidates of a sheet for a part, in scan order. -/
def fitList (sheet : Sheet) (part : Part) : List (Space × Bool) :=
  (scanPairs sheet).filter fun c => decide (fitsP part c.2 c.1)

/-- "Strictly preferable" according to the specification's tie-break chain:
either strictly less waste, or equal waste and non-rotated where the other is
rotated.  (The later perimeter/ledger tie-breaks cannot override these two.) -/
def claimBetter (part : Part) (d c : Space × Bool) : Prop :=
  candWaste part d < candWaste part c ∨
  (candWaste part d = candWaste part c ∧ d.2 = false ∧ c.2 = true)

instance : ∀ part d c, Decidable (claimBetter part d c) :=
  fun _ _ _ => inferInstanceAs (Decidable (_ ∨ _))

/-- The ordering the specification claims for the expanded instance list:
descending area, ties broken by descending height. -/
def claimKey7 (a b : Part) : Prop :=
  b.length * b.height < a.length * a.height ∨
  (b.length * b.height = a.length * a.height ∧ b.height ≤ a.height)

instance : ∀ a b, Decidable (claimKey7 a b) :=
  fun _ _ => inferInstanceAs (Decidable (_ ∨ _))

/-- Concrete input whose greedy run commits overlapping placements. -/
def partsC1 : List Part := [⟨"A", 60, 60, 1⟩, ⟨"B", 40, 20, 1⟩, ⟨"C", 100, 7, 1⟩]

/-- A part larger than the `100 × 100` stock size in both orientations. -/
def partC4 : Part := ⟨"A", 200, 200, 1⟩

/-- Two equal-size parts used to build two genuine greedy layouts. -/
def partA3 : Part := ⟨"A", 60, 60, 1⟩

/-- See `partA3`. -/
def partB3 : Part := ⟨"B", 60, 60, 1⟩

/-- Greedy layout of `[partA3, partB3]`: sheet with `A`, then sheet with `B`. -/
def parent1C3 : List Sheet := (optimize_cutting_heuristic 2 [partA3, partB3] [(100, 100)]).getD []

/-- Greedy layout of `[partB3, partA3]`: sheet with `B`, then sheet with `A`. -/
def parent2C3 : List Sheet := (optimize_cutting_heuristic 2 [partB3, partA3] [(100, 100)]).getD []

/-- Conservation witness input: one part with quantity 2. -/
def partsW3 : List Part := [⟨"A", 2, 2, 2⟩]

/-- Sheet whose ledger holds a rotated-only fit first and an equal-waste
non-rotated fit second. -/
def sheetC5 : Sheet := ⟨100, 100, [], [(0, 0, 4, 2), (5, 5, 2, 4)]⟩

/-- The `2 × 4` part probed against `sheetC5`. -/
def partC5 : Part := ⟨"P", 2, 4, 1⟩

/-- `6 × 2` part: same area as `partQ7`, smaller height. -/
def partP7 : Part := ⟨"P", 6, 2, 1⟩

/-- `4 × 3` part: same area as `partP7`, larger height. -/
def partQ7 : Part := ⟨"Q", 4, 3, 1⟩

end GA

namespace BPH

/-- `Part` dataclass of `bin-packing-handler.py` (dimension floats modelled as
`Int`, see the file header). -/
structure Part where
  id : String
  width : Int
  height : Int
  quantity : Int
deriving DecidableEq

/-- `StockSize` dataclass of `bin-packing-handler.py`. -/
structure StockSize where
  name : String
  width : Int
  height : Int
  quantity : Int
deriving DecidableEq

/-- `PackingResult` dataclass of `bin-packing-handler.py`. -/
structure PackingResult where
  part_id : String
  x : Int
  y : Int
  width : Int
  height : Int
  stock_name : String
deriving DecidableEq

/-- Descending-area order used by `BinPacker.__init__`'s
`sorted(parts, key=lambda x: (x.width * x.height), reverse=True)`. -/
def partGe (a b : Part) : Prop := b.width * b.height ≤ a.width * a.height

instance : DecidableRel partGe := fun _ _ => inferInstanceAs (Decidable (_ ≤ _))

/-- The stable descending-area sort of `BinPacker.__init__`. -/
def sortedParts (parts : List Part) : List Part := parts.insertionSort partGe

/-- The `while remaining_parts and stock_used < stock.quantity:` loop of
`BinPacker.pack` for one stock type.  State `(x, y, maxh, used)` mirrors
`current_x`, `current_y`, `max_height_in_row`, `stock_used`; each loop
iteration either breaks or places (and pops) the head part, so the loop is
structural in the part list. -/
def packLoop (stock : StockSize) : List Part → Int → Int → Int → Int → List PackingResult → List PackingResult
  | [], _, _, _, _, acc => acc
  | part :: rest, x, y, maxh, used, acc =>
    if used < stock.quantity then
      let x' := if x + part.width > stock.width then 0 else x
      let y' := if x + part.width > stock.width then y + maxh else y
      let maxh' := if x + part.width > stock.width then 0 else maxh
      if y' + part.height > stock.height then
        if used + 1 ≥ stock.quantity then acc
        else
          packLoop stock rest part.width 0 part.height (used + 1)
            (acc ++ [⟨part.id, 0, 0, part.width, part.height, stock.name⟩])
      else
        packLoop stock rest (x' + part.width) y' (max maxh' part.height) used
          (acc ++ [⟨part.id, x', y', part.width, part.height, stock.name⟩])
    else acc

/-- `BinPacker.pack`: for each stock type, re-pack a fresh copy of the sorted
part list, accumulating results across stock types (exactly as the Python
method keeps appending to `self.results`). -/
def pack (parts : List Part) (stock_sizes : List StockSize) : List PackingResult :=
  stock_sizes.foldl (fun acc stock => packLoop stock (sortedParts parts) 0 0 0 0 acc) []

/-- A part that fits a stock sheet on its own (non-negative dimensions, no
larger than the sheet in either axis, without rotation — `BinPacker` never
rotates). -/
def fitsStock (p : Part) (s : StockSize) : Prop :=
  0 ≤ p.width ∧ 0 ≤ p.height ∧ p.width ≤ s.width ∧ p.height ≤ s.height

instance : ∀ p s, Decidable (fitsStock p s) := fun _ _ => inferInstanceAs (Decidable (_ ∧ _))

/-- A placement lying inside the bounds of stock sheet `s`. -/
def inBounds (r : PackingResult) (s : StockSize) : Prop :=
  0 ≤ r.x ∧ 0 ≤ r.y ∧ r.x + r.width ≤ s.width ∧ r.y + r.height ≤ s.height

instance : ∀ r s, Decidable (inBounds r s) := fun _ _ => inferInstanceAs (Decidable (_ ∧ _))

/-- Oversize part used in the out-of-bounds counterexample (spec scenario B's
`150 × 50` part). -/
def partC2 : Part := ⟨"b", 150, 50, 1⟩

/-- The `100 × 100`, quantity-1 stock of the counterexample. -/
def stockC2 : StockSize := ⟨"S", 100, 100, 1⟩

/-- Small fitting part for the in-bounds witness. -/
def partW2 : Part := ⟨"a", 30, 30, 1⟩

/-- Stock for the in-bounds witness. -/
def stockW2 : StockSize := ⟨"S", 100, 100, 1⟩

end BPH

namespace GCL

/-- An expanded part dict of `Glass_Cut_list_optimizer.py`
(`{'location', 'length', 'height'}`). -/
structure GPart where
  location : String
  length : Int
  height : Int
deriving DecidableEq

/-- A free-space entry `(x, y, w, h)` of `available_space`. -/
abbrev Space := Int × Int × Int × Int

/-- A placement dict `{'part', 'position', 'rotated'}`. -/
structure GPlacement where
  part : GPart
  position : Int × Int
  rotated : Bool
deriving DecidableEq

/-- A sheet dict `{'size', 'placements'}`. -/
structure GSheet where
  size : Int × Int
  placements : List GPlacement
deriving DecidableEq

/-- `can_fit` of `calculate_layout`: the part fits the space in either
orientation; the gap plays no role here. -/
def can_fit (part : GPart) (space : Space) : Bool :=
  decide ((part.length ≤ space.2.2.1 ∧ part.height ≤ space.2.2.2) ∨
          (part.height ≤ space.2.2.1 ∧ part.length ≤ space.2.2.2))

/-- The inner `for i, space in enumerate(available_space)` search: first space
(with its index) whose `can_fit` holds. -/
def findSpaceIdx (part : GPart) : List Space → Nat → Option (Nat × Space)
  | [], _ => none
  | sp :: rest, i => if can_fit part sp then some (i, sp) else findSpaceIdx part rest (i + 1)

/-- Descending order on spaces by the Python sort key
`(s[2] * s[3], s[2] + s[3])` (used with `reverse=True`). -/
def spaceGe (a b : Space) : Prop :=
  b.2.2.1 * b.2.2.2 < a.2.2.1 * a.2.2.2 ∨
  (b.2.2.1 * b.2.2.2 = a.2.2.1 * a.2.2.2 ∧ b.2.2.1 + b.2.2.2 ≤ a.2.2.1 + a.2.2.2)

instance : DecidableRel spaceGe := fun _ _ => inferInstanceAs (Decidable (_ ∨ _))

/-- One `for part in remaining_parts` step of the per-stock trial in
`calculate_layout`: place the part in the first fitting space (`rotated` is
the code's `part['height'] <= space[2] and part['length'] > space[2]`), carve
two gap-offset remainder spaces and re-sort the ledger. -/
def placePartOnSheet (stockL stockW gap : Int) (st : List GPlacement × List Space)
    (part : GPart) : List GPlacement × List Space :=
  match findSpaceIdx part st.2 0 with
  | none => st
  | some (i, sp) =>
    let rotated := decide (part.height ≤ sp.2.2.1 ∧ sp.2.2.1 < part.length)
    let x := sp.1
    let y := sp.2.1
    let w := if rotated then part.height else part.length
    let h := if rotated then part.length else part.height
    let spaces := st.2.eraseIdx i
    let spaces := spaces ++
      (if x + w + gap < stockL then [(x + w + gap, y, stockL - (x + w + gap), h)] else [])
    let spaces := spaces ++
      (if y + h + gap < stockW then [(x, y + h + gap, w, stockW - (y + h + gap))] else [])
    (st.1 ++ [⟨part, (x, y), rotated⟩], spaces.insertionSort spaceGe)

/-- The per-stock trial of `calculate_layout`: greedily pack all remaining
parts onto a fresh sheet of the given stock size. -/
def packStock (stock : Int × Int) (gap : Int) (parts : List GPart) : GSheet :=
  ⟨stock, (parts.foldl (placePartOnSheet stock.1 stock.2 gap) ([], [(0, 0, stock.1, stock.2)])).1⟩

/-- Utilization of a trial sheet: placed part area over stock area (Python
float division, exact here in `ℚ`). -/
def sheetUtil (sheet : GSheet) : ℚ :=
  (((sheet.placements.map (fun p => p.part.length * p.part.height)).sum : Int) : ℚ) /
    ((sheet.size.1 * sheet.size.2 : Int) : ℚ)

/-- The `for stock in stock_sizes` scan of `calculate_layout`: keep the trial
sheet with strictly best utilization (first stock wins ties), starting from
`best_utilization = 0`. -/
def chooseBest (gap : Int) (parts : List GPart) (stocks : List (Int × Int)) :
    Option GSheet × ℚ :=
  stocks.foldl (fun st stock =>
    let sheet := packStock stock gap parts
    let u := sheetUtil sheet
    if st.2 < u then (some sheet, u) else st) (none, 0)

/-- First element minimizing `f` (Python's `min(..., key=f)` keeps the
earliest minimum). -/
def firstMinBy (f : α → Int) : List α → Option α
  | [] => none
  | a :: l =>
    match firstMinBy f l with
    | none => some a
    | some b => if f b < f a then some b else some a

/-- The `while remaining_parts:` loop of `calculate_layout` (fuelled): commit
the best trial sheet and erase its placed parts, or fall back to a fresh sheet
of the smallest stock carrying only the smallest part.  Each iteration erases
at least one part, so fuel `parts.length` always suffices; an empty stock list
makes Python's `min` raise, modelled as `none`. -/
def layoutLoop (stocks : List (Int × Int)) (gap : Int) :
    Nat → List GPart → List GSheet → Option (List GSheet)
  | _, [], acc => some acc.reverse
  | 0, _ :: _, _ => none
  | fuel + 1, parts@(_ :: _), acc =>
    let bs := (chooseBest gap parts stocks).1
    match bs with
    | some sheet =>
      layoutLoop stocks gap fuel
        ((sheet.placements.map (fun q => q.part)).foldl (fun l q => l.erase q) parts)
        (sheet :: acc)
    | none =>
      match firstMinBy (fun q => q.length * q.height) parts,
            firstMinBy (fun s => s.1 * s.2) stocks with
      | some smallest, some smallstock =>
        layoutLoop stocks gap fuel (parts.erase smallest)
          (⟨smallstock, [⟨smallest, (0, 0), false⟩]⟩ :: acc)
      | _, _ => none

/-- `calculate_layout` of `Glass_Cut_list_optimizer.py` (fuelled). -/
def calculate_layout (fuel : Nat) (parts : List GPart) (stocks : List (Int × Int))
    (gap : Int) : Option (List GSheet) :=
  layoutLoop stocks gap fuel parts []

/-- The `40 × 40` part of spec scenario E. -/
def p40 : GPart := ⟨"p", 40, 40⟩

/-- Space and part for the gap counterexample: a `40 × 40` part in a
`45 × 45` space with gap 10. -/
def spC6 : Space := (0, 0, 45, 45)

/-- See `spC6`. -/
def partC6 : GPart := ⟨"c", 40, 40⟩

/-- The sheet scenario E produces: both `40 × 40` parts on one `100 × 100`
sheet, the second at `x = 50`. -/
def sheetE : GSheet := ⟨(100, 100), [⟨p40, (0, 0), false⟩, ⟨p40, (50, 0), false⟩]⟩

end GCL

namespace BP2D

/-- An expanded part dict of `2D_Bin_Packeging.py`. -/
structure DPart where
  location : String
  length : Int
  height : Int
deriving DecidableEq

/-- A placement dict `{'part', 'position', 'rotated'}`. -/
structure DPlacement where
  part : DPart
  position : Int × Int
  rotated : Bool
deriving DecidableEq

/-- A sheet dict `{'size', 'placements'}` as produced by
`calculate_layout_with_rectpack`. -/
structure DSheet where
  size : Int × Int
  placements : List DPlacement
deriving DecidableEq

/-- The `frozenset((p['part']['length'], p['part']['height'], p['rotated'])
for p in sheet['placements'])` signature of `group_sheets_by_layout` — a SET
of triples, insensitive to multiplicity. -/
def signature (sheet : DSheet) : Finset (Int × Int × Bool) :=
  (sheet.placements.map (fun p => (p.part.length, p.part.height, p.rotated))).toFinset

/-- One step of the `for sheet in optimized_layout` dict building: bump the
count of an existing signature (keeping its first representative sheet) or
append a new group. -/
def groupStep (acc : List (Finset (Int × Int × Bool) × DSheet × Nat)) (sheet : DSheet) :
    List (Finset (Int × Int × Bool) × DSheet × Nat) :=
  if acc.any (fun e => decide (e.1 = signature sheet)) then
    acc.map (fun e => if e.1 = signature sheet then (e.1, e.2.1, e.2.2 + 1) else e)
  else acc ++ [(signature sheet, sheet, 1)]

/-- `group_sheets_by_layout` of `2D_Bin_Packeging.py`: groups in
first-occurrence order (Python dict order), each with its first sheet and its
count. -/
def group_sheets_by_layout (layout : List DSheet) : List (DSheet × Nat) :=
  (layout.foldl groupStep []).map (fun e => (e.2.1, e.2.2))

/-- Sheet with a single `40 × 40` placement. -/
def sheetA9 : DSheet := ⟨(100, 100), [⟨⟨"a", 40, 40⟩, (0, 0), false⟩]⟩

/-- Sheet with two `40 × 40` placements — same signature set as `sheetA9`,
different placement multiset. -/
def sheetB9 : DSheet :=
  ⟨(100, 100), [⟨⟨"a", 40, 40⟩, (0, 0), false⟩, ⟨⟨"a", 40, 40⟩, (50, 0), false⟩]⟩

/-- Witness layout: two sheets sharing a signature and one distinct. -/
def sheetC9 : DSheet := ⟨(100, 100), [⟨⟨"b", 20, 30⟩, (0, 0), true⟩]⟩

end BP2D

namespace GCOPT

/-- `Panel` dataclass of `GlassCuttingIO.py` (the unused `area_sqm` field is
omitted; dimension floats modelled as `Int`). -/
structure Panel where
  length : Int
  height : Int
  quantity : Int
  location : String
deriving DecidableEq

/-- `Stock` dataclass of `GlassCuttingIO.py`. -/
structure Stock where
  length : Int
  width : Int
  quantity : Int
deriving DecidableEq

/-- An expanded panel instance `(panel.length, panel.height, panel.location)`
as appended by the expansion loop of `GlassCuttingOptimizer.optimize`. -/
abbrev PanelInst := Int × Int × String

/-- A placement dict appended to `all_placements`. -/
structure PlacementGC where
  location : String
  x : Int
  y : Int
  length : Int
  height : Int
  sheet_size : Int × Int
  sheet_number : Int
deriving DecidableEq

/-- The expansion loop: each panel repeated `quantity` times. -/
def expandPanels (panels : List Panel) : List PanelInst :=
  panels.flatMap (fun p => List.replicate p.quantity.toNat (p.length, p.height, p.location))

/-- Descending order on `(length, height, location)` triples by the Python
sort key `(x[1], x[0])` (height, then length), used with `reverse=True`. -/
def panelGe (a b : PanelInst) : Prop :=
  b.2.1 < a.2.1 ∨ (b.2.1 = a.2.1 ∧ b.1 ≤ a.1)

instance : DecidableRel panelGe := fun _ _ => inferInstanceAs (Decidable (_ ∨ _))

/-- Mutable state of the `for panel_length, panel_height, location in
sorted_panels` loop of `GlassCuttingOptimizer.optimize`.  `sheets_used` is the
Python dict keyed by the stock-size string `f"{length}x{width}"`, modelled by
the `(length, width)` pair (the float string key is injective in the pair). -/
structure OptState where
  stock_idx : Nat
  current_sheet : Int
  x : Int
  y : Int
  max_height : Int
  placements : List PlacementGC
  sheets_used : List ((Int × Int) × Int)
  total_panel_area : Int
  total_sheet_area : Int
deriving DecidableEq

/-- `{f"{stock.length}x{stock.width}": 0 for stock in self.stocks}`:
first-occurrence-ordered keys, duplicates collapsed. -/
def initUsed (stocks : List Stock) : List ((Int × Int) × Int) :=
  stocks.foldl (fun acc s =>
    if acc.any (fun e => decide (e.1 = (s.length, s.width))) then acc
    else acc ++ [((s.length, s.width), 0)]) []

/-- `sheets_used[key] += 1`. -/
def bumpUsed (used : List ((Int × Int) × Int)) (k : Int × Int) : List ((Int × Int) × Int) :=
  used.map (fun e => if e.1 = k then (e.1, e.2 + 1) else e)

/-- `sheets_used[key]` (the key is always present; 0 default never fires). -/
def lookupUsed (used : List ((Int × Int) × Int)) (k : Int × Int) : Int :=
  ((used.find? (fun e => decide (e.1 = k))).map (fun e => e.2)).getD 0

/-- The `while not placed:` loop body for one panel instance (fuelled):
place in the current position, wrap to the next row, or open the next sheet —
raising `ValueError("Not enough stock sheets available")` when every stock
type is used up.  `none` = fuel ran out. -/
def placePanel (stocks : List Stock) (cut_width : Int) :
    Nat → PanelInst → OptState → Option (Except String OptState)
  | 0, _, _ => none
  | fuel + 1, p, st =>
    match stocks[st.stock_idx]? with
    | none => some (.error "stock index out of range")
    | some stock =>
      let el := p.1 + cut_width
      let eh := p.2.1 + cut_width
      if st.x + el ≤ stock.length ∧ st.y + eh ≤ stock.width then
        some (.ok { st with
          placements := st.placements ++
            [⟨p.2.2, st.x, st.y, p.1, p.2.1, (stock.length, stock.width), st.current_sheet⟩],
          max_height := max st.max_height eh,
          x := st.x + el,
          total_panel_area := st.total_panel_area + p.1 * p.2.1 })
      else if 0 < st.x ∧ st.y + st.max_height + eh ≤ stock.width then
        placePanel stocks cut_width fuel p
          { st with x := 0, y := st.y + st.max_height, max_height := 0 }
      else
        let key := (stock.length, stock.width)
        let used' := bumpUsed st.sheets_used key
        let st' := { st with sheets_used := used',
                             total_sheet_area := st.total_sheet_area + stock.length * stock.width }
        if stock.quantity ≤ lookupUsed used' key then
          if stocks.length ≤ st.stock_idx + 1 then
            some (.error "Not enough stock sheets available")
          else
            placePanel stocks cut_width fuel p
              { st' with stock_idx := st.stock_idx + 1, current_sheet := st.current_sheet + 1,
                         x := 0, y := 0, max_height := 0 }
        else
          placePanel stocks cut_width fuel p
            { st' with current_sheet := st.current_sheet + 1, x := 0, y := 0, max_height := 0 }

/-- The outer `for ... in sorted_panels` loop. -/
def goPanels (stocks : List Stock) (cut_width : Int) (fuel : Nat) :
    List PanelInst → OptState → Option (Except String OptState)
  | [], st => some (.ok st)
  | p :: ps, st =>
    match placePanel stocks cut_width fuel p st with
    | none => none
    | some (.error e) => some (.error e)
    | some (.ok st') => goPanels stocks cut_width fuel ps st'

/-- The data of Python's `OptimizationResult` relevant here.  Python computes
`efficiency` eagerly by float division (raising `ZeroDivisionError` when no
sheet was consumed, which `optimize` below maps to an error); the exact ratio
is recovered by `efficiency`. -/
structure OptResult where
  placements : List PlacementGC
  sheets_used : List ((Int × Int) × Int)
  total_panel_area : Int
  total_sheet_area : Int
deriving DecidableEq

/-- `(total_panel_area / total_sheet_area) * 100` of
`GlassCuttingOptimizer.optimize`, as an exact rational. -/
def efficiency (r : OptResult) : ℚ :=
  ((r.total_panel_area : ℚ) / (r.total_sheet_area : ℚ)) * 100

/-- The trailing `if x > 0 or y > 0:` accounting of the last open sheet. -/
def finalizeState (stocks : List Stock) (st : OptState) : OptState :=
  if 0 < st.x ∨ 0 < st.y then
    match stocks[st.stock_idx]? with
    | none => st
    | some stock =>
      { st with sheets_used := bumpUsed st.sheets_used (stock.length, stock.width),
                total_sheet_area := st.total_sheet_area + stock.length * stock.width }
  else st

/-- `GlassCuttingOptimizer.optimize` (fuelled): expand, sort by descending
`(height, length)`, place every instance, then account the final sheet
(`if x > 0 or y > 0`). -/
def optimize (stocks : List Stock) (panels : List Panel) (cut_width : Int)
    (fuel : Nat) : Option (Except String OptResult) :=
  let sorted := (expandPanels panels).insertionSort panelGe
  let st0 : OptState := ⟨0, 0, 0, 0, 0, [], initUsed stocks, 0, 0⟩
  match goPanels stocks cut_width fuel sorted st0 with
  | none => none
  | some (.error e) => some (.error e)
  | some (.ok st) =>
    let st1 := finalizeState stocks st
    if st1.total_sheet_area = 0 then some (.error "division by zero")
    else some (.ok ⟨st1.placements, st1.sheets_used, st1.total_panel_area, st1.total_sheet_area⟩)

/-- Stock for the exhaustion counterexample: one `100 × 100` sheet. -/
def stockC8 : Stock := ⟨100, 100, 1⟩

/-- Panel for the exhaustion counterexample: `60 × 60`, quantity 2 (with the
5-unit cut width, only one instance fits the single sheet). -/
def panelC8 : Panel := ⟨60, 60, 2, "A"⟩

/-- Stock for the success witness. -/
def stockW8 : Stock := ⟨200, 200, 5⟩

/-- Panel for the success witness: `50 × 50`, quantity 2. -/
def panelW8 : Panel := ⟨50, 50, 2, "A"⟩

/-- The state `optimize` returns on the witness input. -/
def resW8 : OptResult :=
  ⟨[⟨"A", 0, 0, 50, 50, (200, 200), 0⟩, ⟨"A", 55, 0, 50, 50, (200, 200), 0⟩],
   [((200, 200), 1)], 5000, 40000⟩

end GCOPT

namespace HGCO

/-- `GlassPiece` of `HybridGlassCuttingOptimizer.py` (constructor floats
modelled as `Int`; the derived `area` sqm field is `GlassPiece.area`). -/
structure GlassPiece where
  location : String
  length : Int
  height : Int
  qty : Int
deriving DecidableEq

/-- `self.area = length * height / 1_000_000` (square metres). -/
def GlassPiece.area (p : GlassPiece) : ℚ := ((p.length * p.height : Int) : ℚ) / 1000000

/-- `StockSheet` of `HybridGlassCuttingOptimizer.py`. -/
structure StockSheet where
  length : Int
  width : Int
deriving DecidableEq

/-- `self.total_area = length * width / 1_000_000` (square metres). -/
def StockSheet.total_area (s : StockSheet) : ℚ := ((s.length * s.width : Int) : ℚ) / 1000000

/-- Descending-area order of the `sorted(..., key=lambda p: p.length * p.height,
reverse=True)` call in `optimize`. -/
def pieceGe (a b : GlassPiece) : Prop := b.length * b.height ≤ a.length * a.height

instance : DecidableRel pieceGe := fun _ _ => inferInstanceAs (Decidable (_ ≤ _))

/-- The `[piece for piece in self.glass_pieces for _ in range(piece.qty)]`
expansion. -/
def expandPieces (pieces : List GlassPiece) : List GlassPiece :=
  pieces.flatMap (fun p => List.replicate p.qty.toNat p)

/-- The best-piece scan of `_optimize_single_sheet`: among the remaining
pieces that fit the stock sheet (either orientation), the first one with
strictly greatest `piece_area / sheet_area` (starting from
`best_efficiency = 0`, so zero-area pieces are never chosen). -/
def selectBest (stock : StockSheet) (pieces : List GlassPiece) : Option GlassPiece × ℚ :=
  pieces.foldl (fun st piece =>
    if (piece.length ≤ stock.length ∧ piece.height ≤ stock.width) ∨
       (piece.height ≤ stock.length ∧ piece.length ≤ stock.width) then
      let efficiency := ((piece.length * piece.height : Int) : ℚ) /
        ((stock.length * stock.width : Int) : ℚ)
      if st.2 < efficiency then (some piece, efficiency) else st
    else st) (none, 0)

/-- The `while remaining_pieces:` loop of `_optimize_single_sheet` (fuelled;
each iteration removes the selected piece, so fuel `pieces.length` always
suffices). -/
def singleSheetGo (stock : StockSheet) : Nat → List GlassPiece → List GlassPiece → List GlassPiece
  | 0, _, acc => acc
  | fuel + 1, remaining, acc =>
    match remaining with
    | [] => acc
    | _ :: _ =>
      match (selectBest stock remaining).1 with
      | some best => singleSheetGo stock fuel (remaining.erase best) (acc ++ [best])
      | none => acc

/-- `_optimize_single_sheet` of `HybridGlassCuttingOptimizer.py`.  Note it
performs no geometry at all: every piece that fits the sheet on its own is
appended, regardless of the area already consumed. -/
def optimize_single_sheet (stock : StockSheet) (pieces : List GlassPiece) : List GlassPiece :=
  singleSheetGo stock pieces.length pieces []

/-- One entry of the `sheet_utilization` report list:
`{'sheet_size', 'utilized_pieces', 'utilization_percentage'}`.  The
percentage is `(sum of cut areas in mm^2) / stock.total_area` (in m^2!)
times 100, exactly as in the source. -/
structure SheetUtil where
  sheet_size : Int × Int
  utilized_pieces : Nat
  utilization_percentage : ℚ
deriving DecidableEq

/-- `HybridGlassCuttingOptimizer.optimize`: sort the expanded pieces by
descending area, fill each stock sheet with `_optimize_single_sheet`, record
its utilization entry when non-empty, and return the report together with the
number of remaining (uncut) pieces. -/
def optimize (stock_sheets : List StockSheet) (glass_pieces : List GlassPiece) :
    List SheetUtil × Nat :=
  let sorted := (expandPieces glass_pieces).insertionSort pieceGe
  let res := stock_sheets.foldl (fun (st : List SheetUtil × List GlassPiece) stock =>
    let cuts := optimize_single_sheet stock st.2
    if cuts.isEmpty then st
    else
      let util := (((cuts.map (fun c => c.length * c.height)).sum : Int) : ℚ) / stock.total_area
      (st.1 ++ [⟨(stock.length, stock.width), cuts.length, util * 100⟩],
       cuts.foldl (fun l c => l.erase c) st.2)) ([], sorted)
  (res.1, res.2.length)

/-- A `1000 × 1000` mm piece. -/
def pieceC10 : GlassPiece := ⟨"A", 1000, 1000, 1⟩

/-- A `1000 × 1000` mm stock sheet (`total_area` = 1 m^2). -/
def stockC10 : StockSheet := ⟨1000, 1000⟩

end HGCO

/-!
Theorems.  Each claim of the specification audit owns exactly one main
theorem below (plus, where needed, a counterexample and a witness).
-/

namespace GA

theorem add_part_placements_length (s : Sheet) (part : Part) (x y : Int) (rotated : Bool) :
    (s.add_part part x y rotated).placements.length = s.placements.length + 1 := by
  simp [Sheet.add_part]

/-- C1 (bug evidence): on `partsC1` with a single `100 × 100` stock size the
greedy heuristic returns one sheet carrying three placements, two of which
overlap — the free-space update of `Sheet.add_part` splits regions that do not
intersect the placed rectangle and thereby resurrects occupied space. -/
theorem overlap_in_greedy_solution :
    (optimize_cutting_heuristic 2 partsC1 [(100, 100)]).isSome = true ∧
    ∃ s ∈ (optimize_cutting_heuristic 2 partsC1 [(100, 100)]).getD [],
      ∃ p ∈ s.placements, ∃ q ∈ s.placements, p ≠ q ∧ overlaps p q := by
  decide

theorem heuristicLoop_stuck (fuel : Nat) : ∀ acc, heuristicLoop (100, 100) fuel [partC4] acc = none := by
  induction fuel with
  | zero => intro acc; rfl
  | succ n ih =>
    intro acc
    have h : packSheetParts (Sheet.new 100 100) [partC4] = (Sheet.new 100 100, [partC4]) := by decide
    simp only [heuristicLoop, h]
    exact ih _

/-- C4 (bug evidence): a part instance that fits no stock size in either
orientation is never marked unplaced; the `while parts:` loop of
`optimize_cutting_heuristic` re-opens fresh sheets forever, so the run does
not terminate for any amount of fuel. -/
theorem heuristic_diverges_on_oversize :
    ∀ fuel, optimize_cutting_heuristic fuel [partC4] [(100, 100)] = none := by
  intro fuel
  have h : sortParts [partC4] = [partC4] := rfl
  simp only [optimize_cutting_heuristic, h]
  exact heuristicLoop_stuck fuel []

/-- C3 counterexample: `crossover` applied to two greedy layouts of the same
two-part demand (each placing `A` once and `B` once) yields a child layout
that places `A` twice and `B` not at all, with no unplaced record — the
sheet-list prefix/suffix recombination does not conserve the part multiset. -/
theorem crossover_not_conserving_cex :
    placedCount parent1C3 "A" = 1 ∧ placedCount parent1C3 "B" = 1 ∧
    placedCount parent2C3 "A" = 1 ∧ placedCount parent2C3 "B" = 1 ∧
    placedCount (crossover parent1C3 parent2C3) "A" = 2 ∧
    placedCount (crossover parent1C3 parent2C3) "B" = 0 := by
  decide

theorem attemptPlace_count : ∀ (n : Nat) (sheet : Sheet) (part : Part),
    (attemptPlace sheet part n).1.placements.length =
      sheet.placements.length + (attemptPlace sheet part n).2 ∧
    (attemptPlace sheet part n).2 ≤ n := by
  intro n
  induction n with
  | zero => intro sheet part; exact ⟨(Nat.add_zero _).symm, Nat.le_refl 0⟩
  | succ n ih =>
    intro sheet part
    simp only [attemptPlace]
    split
    · have h2 := ih (sheet.add_part part (find_best_fit sheet part).1
        (find_best_fit sheet part).2.1 (find_best_fit sheet part).2.2) part
      rw [add_part_placements_length] at h2
      dsimp only
      exact ⟨by omega, by omega⟩
    · have h2 := ih sheet part
      exact ⟨h2.1, Nat.le_succ_of_le h2.2⟩

theorem packSheetParts_conservation : ∀ (parts : List Part) (sheet : Sheet),
    (packSheetParts sheet parts).1.placements.length +
      (((packSheetParts sheet parts).2).map (fun p => p.quantity.toNat)).sum =
    sheet.placements.length + ((parts.map (fun p => p.quantity.toNat)).sum) := by
  intro parts
  induction parts with
  | nil => intro sheet; simp [packSheetParts]
  | cons part rest ih =>
    intro sheet
    obtain ⟨h1, h2⟩ := attemptPlace_count part.quantity.toNat sheet part
    have h3 := ih (attemptPlace sheet part part.quantity.toNat).1
    simp only [packSheetParts, List.map_cons, List.sum_cons]
    split
    · dsimp only
      omega
    · dsimp only
      simp only [List.map_cons, List.sum_cons]
      omega

theorem heuristicLoop_conservation : ∀ (fuel : Nat) (s0 : Int × Int) (parts : List Part)
    (acc : List Sheet) (sheets : List Sheet),
    heuristicLoop s0 fuel parts acc = some sheets →
    ((sheets.map (fun s => s.placements.length)).sum) =
      ((acc.map (fun s => s.placements.length)).sum) +
        ((parts.map (fun p => p.quantity.toNat)).sum) := by
  intro fuel
  induction fuel with
  | zero =>
    intro s0 parts acc sheets h
    match parts with
    | [] =>
      have hs : sheets = acc.reverse := by
        simpa [heuristicLoop] using h.symm
      subst hs
      simp [List.map_reverse, List.sum_reverse]
    | p :: rest => exact absurd h (by simp [heuristicLoop])
  | succ n ih =>
    intro s0 parts acc sheets h
    match parts with
    | [] =>
      have hs : sheets = acc.reverse := by
        simpa [heuristicLoop] using h.symm
      subst hs
      simp [List.map_reverse, List.sum_reverse]
    | p :: rest =>
      simp only [heuristicLoop] at h
      have h4 := ih s0 (packSheetParts (Sheet.new s0.1 s0.2) (p :: rest)).2
        ((packSheetParts (Sheet.new s0.1 s0.2) (p :: rest)).1 :: acc) sheets h
      have h5 := packSheetParts_conservation (p :: rest) (Sheet.new s0.1 s0.2)
      simp only [List.map_cons, List.sum_cons] at h4
      have h6 : (Sheet.new s0.1 s0.2).placements.length = 0 := rfl
      omega

/-- C3 (amended): whenever the greedy heuristic terminates, the total number
of placements across all returned sheets equals the total expanded demand
(the sum of the part quantities); there is no separate unplaced list in this
code path.  (The refiner's `crossover`/`mutate` steps do not preserve this —
see the counterexample.) -/
theorem heuristic_conservation (fuel : Nat) (parts : List Part) (stocks : List (Int × Int))
    (sheets : List Sheet) (h : optimize_cutting_heuristic fuel parts stocks = some sheets) :
    ((sheets.map (fun s => s.placements.length)).sum) =
      ((parts.map (fun p => p.quantity.toNat)).sum) := by
  match stocks with
  | [] => exact absurd h (by simp [optimize_cutting_heuristic])
  | s0 :: rest =>
    have h2 := heuristicLoop_conservation fuel s0 (sortParts parts) [] sheets h
    have hperm : (sortParts parts).Perm parts := List.perm_insertionSort _ _
    have h3 : ((sortParts parts).map (fun p => p.quantity.toNat)).sum =
        ((parts.map (fun p => p.quantity.toNat)).sum) := (hperm.map _).sum_eq
    simpa [h3] using h2

/-- Witness for `heuristic_conservation` at a concrete input. -/
theorem heuristic_conservation_witness :
    ∃ sheets, optimize_cutting_heuristic 1 partsW3 [(10, 10)] = some sheets ∧
      ((sheets.map (fun s => s.placements.length)).sum) =
        ((partsW3.map (fun p => p.quantity.toNat)).sum) := by
  have hs : (optimize_cutting_heuristic 1 partsW3 [(10, 10)]).isSome = true := by decide
  obtain ⟨sheets, h⟩ := Option.isSome_iff_exists.mp hs
  exact ⟨sheets, h, heuristic_conservation 1 partsW3 [(10, 10)] sheets h⟩

end GA

namespace GA

theorem fitStep_not_fit (part : Part) (rotated : Bool) (sp : Space) (st)
    (h : ¬ fitsP part rotated sp) : fitStep part rotated sp st = st := by
  have h' : ¬ ((if rotated then part.height else part.length) ≤ sp.2.2.1 ∧
      (if rotated then part.length else part.height) ≤ sp.2.2.2) := h
  simp only [fitStep]
  rw [if_neg h']

theorem fitStep_fit_none (part : Part) (rotated : Bool) (sp : Space)
    (h : fitsP part rotated sp) :
    fitStep part rotated sp none = some ((sp.1, sp.2.1, rotated), wasteOf part rotated sp) := by
  have h' : ((if rotated then part.height else part.length) ≤ sp.2.2.1 ∧
      (if rotated then part.length else part.height) ≤ sp.2.2.2) := h
  simp only [fitStep]
  rw [if_pos h']
  rfl

theorem fitStep_fit_some (part : Part) (rotated : Bool) (sp : Space) (b mw)
    (h : fitsP part rotated sp) :
    fitStep part rotated sp (some (b, mw)) =
      if wasteOf part rotated sp < mw then some ((sp.1, sp.2.1, rotated), wasteOf part rotated sp)
      else some (b, mw) := by
  have h' : ((if rotated then part.height else part.length) ≤ sp.2.2.1 ∧
      (if rotated then part.length else part.height) ≤ sp.2.2.2) := h
  simp only [fitStep]
  rw [if_pos h']
  rfl

theorem foldl_scanPairs (part : Part) : ∀ (spaces : List Space) (st : Option ((Int × Int × Bool) × Int)),
    spaces.foldl (fun st sp => fitStep part true sp (fitStep part false sp st)) st =
      (spaces.flatMap fun sp => [(sp, false), (sp, true)]).foldl
        (fun st c => fitStep part c.2 c.1 st) st := by
  intro spaces
  induction spaces with
  | nil => intro st; rfl
  | cons sp rest ih =>
    intro st
    simp only [List.flatMap_cons, List.foldl_append, List.foldl_cons, List.foldl_nil]
    exact ih _

theorem foldl_filter_fit (part : Part) : ∀ (l : List (Space × Bool)) (st),
    l.foldl (fun st c => fitStep part c.2 c.1 st) st =
      (l.filter fun c => decide (fitsP part c.2 c.1)).foldl
        (fun st c => fitStep part c.2 c.1 st) st := by
  intro l
  induction l with
  | nil => intro st; rfl
  | cons c rest ih =>
    intro st
    by_cases h : fitsP part c.2 c.1
    · rw [List.foldl_cons, List.filter_cons, if_pos (by simp [h]), List.foldl_cons]
      exact ih _
    · rw [List.foldl_cons, List.filter_cons, if_neg (by simp [h]),
        fitStep_not_fit part c.2 c.1 st h]
      exact ih _

theorem bestFold_from (part : Part) : ∀ (l : List (Space × Bool)) (c0 : Space × Bool),
    (∀ d ∈ l, fitsP part d.2 d.1) →
    ∃ c l1 l2, c0 :: l = l1 ++ c :: l2 ∧
      l.foldl (fun st c => fitStep part c.2 c.1 st) (some (candProj c0, candWaste part c0)) =
        some (candProj c, candWaste part c) ∧
      (∀ d ∈ l1, candWaste part c < candWaste part d) ∧
      (∀ d ∈ l2, candWaste part c ≤ candWaste part d) := by
  intro l
  induction l with
  | nil =>
    intro c0 _
    exact ⟨c0, [], [], rfl, rfl, by simp, by simp⟩
  | cons d rest ih =>
    intro c0 hall
    have hd : fitsP part d.2 d.1 := hall d (by simp)
    have hrest : ∀ e ∈ rest, fitsP part e.2 e.1 := fun e he => hall e (by simp [he])
    simp only [List.foldl_cons]
    rw [show candProj c0 = (c0.1.1, c0.1.2.1, c0.2) from rfl] -- keep shape explicit
    rw [show (fitStep part d.2 d.1 (some ((c0.1.1, c0.1.2.1, c0.2), candWaste part c0))) =
        (if wasteOf part d.2 d.1 < candWaste part c0
          then some ((d.1.1, d.1.2.1, d.2), wasteOf part d.2 d.1)
          else some ((c0.1.1, c0.1.2.1, c0.2), candWaste part c0))
      from fitStep_fit_some part d.2 d.1 _ _ hd]
    by_cases hlt : wasteOf part d.2 d.1 < candWaste part c0
    · rw [if_pos hlt]
      obtain ⟨c, l1, l2, heq, hfold, hl1, hl2⟩ := ih d hrest
      refine ⟨c, c0 :: l1, l2, by rw [List.cons_append, ← heq], ?_, ?_, hl2⟩
      · exact hfold
      · intro e he
        rcases List.mem_cons.mp he with he0 | he1
        · subst he0
          have hcd : candWaste part c ≤ candWaste part d := by
            cases l1 with
            | nil =>
              have : c = d := by
                have := heq
                simp only [List.nil_append, List.cons.injEq] at this
                exact this.1.symm
              rw [this]
            | cons f l1' =>
              have hfd : f = d := by
                have := heq
                simp only [List.cons_append, List.cons.injEq] at this
                exact this.1.symm
              exact le_of_lt (hfd ▸ hl1 f (by simp))
          exact lt_of_le_of_lt hcd hlt
        · exact hl1 e he1
    · rw [if_neg hlt]
      obtain ⟨c, l1, l2, heq, hfold, hl1, hl2⟩ := ih c0 hrest
      cases l1 with
      | nil =>
        have hc1 : c = c0 := by
          have := heq
          simp only [List.nil_append, List.cons.injEq] at this
          exact this.1.symm
        have hc2 : l2 = rest := by
          have := heq
          simp only [List.nil_append, List.cons.injEq] at this
          exact this.2.symm
        refine ⟨c, [], d :: l2, by rw [hc1, hc2]; rfl, hfold, by simp, ?_⟩
        intro e he
        rcases List.mem_cons.mp he with he0 | he1
        · subst he0
          rw [hc1]
          exact le_of_not_lt hlt
        · exact hl2 e he1
      | cons f l1' =>
        have hf1 : f = c0 := by
          have := heq
          simp only [List.cons_append, List.cons.injEq] at this
          exact this.1.symm
        have hf2 : rest = l1' ++ c :: l2 := by
          have := heq
          simp only [List.cons_append, List.cons.injEq] at this
          exact this.2
        have hcc0 : candWaste part c < candWaste part c0 := hf1 ▸ hl1 f (by simp)
        refine ⟨c, c0 :: d :: l1', l2, by rw [hf2]; rfl, hfold, ?_, hl2⟩
        intro e he
        rcases List.mem_cons.mp he with he0 | he1
        · subst he0
          exact hcc0
        · rcases List.mem_cons.mp he1 with he2 | he3
          · subst he2
            exact lt_of_lt_of_le hcc0 (le_of_not_lt hlt)
          · exact hl1 e (by simp [he3])

/-- C5 (amended): `find_best_fit` returns `(-1, -1, False)` exactly when no
`(region, orientation)` pair fits, and otherwise the anchor and rotation flag
of the first candidate, in scan order (regions in ledger order, non-rotated
before rotated within a region), whose leftover waste is minimal over all
fitting candidates — ties are broken by scan position, not by preferring the
non-rotated orientation globally nor by region perimeter. -/
theorem find_best_fit_first_min (sheet : Sheet) (part : Part) :
    (fitList sheet part = [] ∧ find_best_fit sheet part = (-1, -1, false)) ∨
    (∃ c l1 l2, fitList sheet part = l1 ++ c :: l2 ∧
      find_best_fit sheet part = candProj c ∧
      (∀ d ∈ l1, candWaste part c < candWaste part d) ∧
      (∀ d ∈ l2, candWaste part c ≤ candWaste part d)) := by
  have hF : sheet.remaining_space.foldl
      (fun st sp => fitStep part true sp (fitStep part false sp st)) none =
      (fitList sheet part).foldl (fun st c => fitStep part c.2 c.1 st) none := by
    rw [foldl_scanPairs part sheet.remaining_space none]
    exact foldl_filter_fit part (scanPairs sheet) none
  cases hfl : fitList sheet part with
  | nil =>
    left
    refine ⟨rfl, ?_⟩
    unfold find_best_fit
    rw [hF, hfl]
    rfl
  | cons c0 rest =>
    right
    have hall : ∀ d ∈ fitList sheet part, fitsP part d.2 d.1 := by
      intro d hd
      have := List.of_mem_filter hd
      exact of_decide_eq_true this
    rw [hfl] at hall
    obtain ⟨c, l1, l2, heq, hfold, hl1, hl2⟩ :=
      bestFold_from part rest c0 (fun e he => hall e (List.mem_cons_of_mem _ he))
    have hc0 : fitsP part c0.2 c0.1 := hall c0 (List.mem_cons_self _ _)
    refine ⟨c, l1, l2, heq, ?_, hl1, hl2⟩
    unfold find_best_fit
    rw [hF, hfl]
    simp only [List.foldl_cons]
    rw [fitStep_fit_none part c0.2 c0.1 hc0]
    have hshape : some ((c0.1.1, c0.1.2.1, c0.2), wasteOf part c0.2 c0.1) =
        some (candProj c0, candWaste part c0) := rfl
    rw [hshape, hfold]

/-- Instantiation of `find_best_fit_first_min` at a concrete sheet and part. -/
theorem find_best_fit_first_min_witness :
    (fitList sheetC5 partC5 = [] ∧ find_best_fit sheetC5 partC5 = (-1, -1, false)) ∨
    (∃ c l1 l2, fitList sheetC5 partC5 = l1 ++ c :: l2 ∧
      find_best_fit sheetC5 partC5 = candProj c ∧
      (∀ d ∈ l1, candWaste partC5 c < candWaste partC5 d) ∧
      (∀ d ∈ l2, candWaste partC5 c ≤ candWaste partC5 d)) :=
  find_best_fit_first_min sheetC5 partC5

/-- C5 counterexample: on `sheetC5` the code returns the rotated fit of the
first ledger region even though the second region offers an equal-waste
non-rotated fit, which the specification's orientation tie-break would
require. -/
theorem find_best_fit_tiebreak_cex :
    find_best_fit sheetC5 partC5 = (0, 0, true) ∧
    ∀ c ∈ fitList sheetC5 partC5, candProj c = (0, 0, true) →
      ∃ d ∈ fitList sheetC5 partC5, claimBetter partC5 d c := by
  decide

/-- C7 (amended): the instance ordering used before placement is the stable
descending-area sort: the output is a permutation of the input, pairwise
sorted by `areaGe` (descending `length * height`), and any two elements whose
input order already agrees with `areaGe` — in particular equal-area ties —
keep their input order.  (It is a pure function of the input list, hence
deterministic.) -/
theorem sort_area_descending_stable (parts : List Part) :
    (sortParts parts).Perm parts ∧
    (sortParts parts).Pairwise areaGe ∧
    (∀ a b : Part, areaGe a b → [a, b].Sublist parts → [a, b].Sublist (sortParts parts)) := by
  refine ⟨List.perm_insertionSort _ _, ?_, ?_⟩
  · haveI : IsTotal Part areaGe := ⟨fun a b => le_total _ _⟩
    haveI : IsTrans Part areaGe := ⟨fun _ _ _ h1 h2 => le_trans h2 h1⟩
    exact List.sorted_insertionSort _ _
  · intro a b hab hsub
    exact List.pair_sublist_insertionSort hab hsub

/-- Witness for `sort_area_descending_stable`: the equal-area pair
`partP7, partQ7` keeps its input order. -/
theorem sort_area_descending_stable_witness :
    [partP7, partQ7].Sublist (sortParts [partP7, partQ7]) :=
  (sort_area_descending_stable [partP7, partQ7]).2.2 partP7 partQ7 (by decide) (by decide)

/-- C7 counterexample: two equal-area parts are left in input order by the
code's sort, violating the claimed descending-height tie-break (which would
put the `4 × 3` part before the `6 × 2` part). -/
theorem sort_no_height_tiebreak_cex :
    sortParts [partP7, partQ7] = [partP7, partQ7] ∧
    ¬ (sortParts [partP7, partQ7]).Pairwise claimKey7 := by
  decide

end GA

namespace BPH

theorem packLoop_in_bounds (stock : StockSize) :
    ∀ (rest : List Part) (x y maxh used : Int) (acc : List PackingResult),
    (∀ p ∈ rest, fitsStock p stock) → 0 ≤ x → 0 ≤ y → 0 ≤ maxh →
    ∀ r ∈ packLoop stock rest x y maxh used acc,
      r ∈ acc ∨ (r.stock_name = stock.name ∧ inBounds r stock) := by
  intro rest
  induction rest with
  | nil => intro x y maxh used acc _ _ _ _ r hr; exact Or.inl hr
  | cons part tail ih =>
    intro x y maxh used acc hfit hx hy hmaxh r hr
    obtain ⟨hpw, hph, hpw2, hph2⟩ : fitsStock part stock := hfit part (by simp)
    have htail : ∀ p ∈ tail, fitsStock p stock := fun p hp => hfit p (by simp [hp])
    simp only [packLoop] at hr
    by_cases hused : used < stock.quantity
    · rw [if_pos hused] at hr
      by_cases hwrap : x + part.width > stock.width
      · rw [if_pos hwrap, if_pos hwrap, if_pos hwrap] at hr
        by_cases hrow : y + maxh + part.height > stock.height
        · rw [if_pos hrow] at hr
          by_cases hbreak : used + 1 ≥ stock.quantity
          · rw [if_pos hbreak] at hr
            exact Or.inl hr
          · rw [if_neg hbreak] at hr
            rcases ih part.width 0 part.height (used + 1) _ htail hpw le_rfl hph r hr with h | h
            · rcases List.mem_append.mp h with h2 | h2
              · exact Or.inl h2
              · refine Or.inr ?_
                have hre : r = ⟨part.id, 0, 0, part.width, part.height, stock.name⟩ := by
                  simpa using h2
                subst hre
                refine ⟨rfl, le_rfl, le_rfl, ?_, ?_⟩
                · show (0 : Int) + part.width ≤ stock.width
                  omega
                · show (0 : Int) + part.height ≤ stock.height
                  omega
            · exact Or.inr h
        · rw [if_neg hrow] at hr
          rcases ih (0 + part.width) (y + maxh) (max 0 part.height) used _ htail
              (by omega) (by omega) (le_max_left 0 part.height) r hr with h | h
          · rcases List.mem_append.mp h with h2 | h2
            · exact Or.inl h2
            · refine Or.inr ?_
              have hre : r = ⟨part.id, 0, y + maxh, part.width, part.height, stock.name⟩ := by
                simpa using h2
              subst hre
              refine ⟨rfl, le_rfl, ?_, ?_, ?_⟩
              · show (0 : Int) ≤ y + maxh
                omega
              · show (0 : Int) + part.width ≤ stock.width
                omega
              · show y + maxh + part.height ≤ stock.height
                omega
          · exact Or.inr h
      · rw [if_neg hwrap, if_neg hwrap, if_neg hwrap] at hr
        by_cases hrow : y + part.height > stock.height
        · rw [if_pos hrow] at hr
          by_cases hbreak : used + 1 ≥ stock.quantity
          · rw [if_pos hbreak] at hr
            exact Or.inl hr
          · rw [if_neg hbreak] at hr
            rcases ih part.width 0 part.height (used + 1) _ htail hpw le_rfl hph r hr with h | h
            · rcases List.mem_append.mp h with h2 | h2
              · exact Or.inl h2
              · refine Or.inr ?_
                have hre : r = ⟨part.id, 0, 0, part.width, part.height, stock.name⟩ := by
                  simpa using h2
                subst hre
                refine ⟨rfl, le_rfl, le_rfl, ?_, ?_⟩
                · show (0 : Int) + part.width ≤ stock.width
                  omega
                · show (0 : Int) + part.height ≤ stock.height
                  omega
            · exact Or.inr h
        · rw [if_neg hrow] at hr
          rcases ih (x + part.width) y (max maxh part.height) used _ htail
              (by omega) hy (le_max_of_le_left hmaxh) r hr with h | h
          · rcases List.mem_append.mp h with h2 | h2
            · exact Or.inl h2
            · refine Or.inr ?_
              have hre : r = ⟨part.id, x, y, part.width, part.height, stock.name⟩ := by
                simpa using h2
              subst hre
              refine ⟨rfl, hx, hy, ?_, ?_⟩
              · show x + part.width ≤ stock.width
                omega
              · show y + part.height ≤ stock.height
                omega
          · exact Or.inr h
    · rw [if_neg hused] at hr
      exact Or.inl hr

/-- C2 (amended): provided every part fits every configured stock sheet on its
own (non-negative dimensions, no larger than the sheet in either axis),
every `PackingResult` produced by `BinPacker.pack` lies within the bounds
`[0, stock.width] × [0, stock.height]` of the stock type it names.  (Without
that hypothesis the invariant fails — see the counterexample.) -/
theorem pack_in_bounds_of_fits (parts : List Part) (stocks : List StockSize)
    (hfit : ∀ p ∈ parts, ∀ s ∈ stocks, fitsStock p s) :
    ∀ r ∈ pack parts stocks, ∃ s ∈ stocks, r.stock_name = s.name ∧ inBounds r s := by
  have hsorted : ∀ p ∈ sortedParts parts, ∀ s ∈ stocks, fitsStock p s := by
    intro p hp
    exact hfit p ((List.perm_insertionSort partGe parts).subset hp)
  suffices h : ∀ (ss : List StockSize), (∀ s ∈ ss, s ∈ stocks) →
      ∀ (acc : List PackingResult),
      (∀ r ∈ acc, ∃ s ∈ stocks, r.stock_name = s.name ∧ inBounds r s) →
      ∀ r ∈ ss.foldl (fun acc stock => packLoop stock (sortedParts parts) 0 0 0 0 acc) acc,
        ∃ s ∈ stocks, r.stock_name = s.name ∧ inBounds r s by
    intro r hr
    exact h stocks (fun _ hs => hs) [] (by simp) r hr
  intro ss
  induction ss with
  | nil => intro _ acc hacc r hr; exact hacc r hr
  | cons stock rest ih =>
    intro hss acc hacc r hr
    refine ih (fun s hs => hss s (by simp [hs])) _ ?_ r hr
    intro r' hr'
    rcases packLoop_in_bounds stock (sortedParts parts) 0 0 0 0 acc
        (fun p hp => hsorted p hp stock (hss stock (by simp))) le_rfl le_rfl le_rfl r' hr' with h | h
    · exact hacc r' h
    · exact ⟨stock, hss stock (by simp), h.1, h.2⟩

/-- Witness for `pack_in_bounds_of_fits` at a concrete fitting input. -/
theorem pack_in_bounds_witness :
    ∃ s ∈ [stockW2], (⟨"a", 0, 0, 30, 30, "S"⟩ : PackingResult).stock_name = s.name ∧
      inBounds ⟨"a", 0, 0, 30, 30, "S"⟩ s :=
  pack_in_bounds_of_fits [partW2] [stockW2] (by decide) ⟨"a", 0, 0, 30, 30, "S"⟩ (by decide)

/-- C2 counterexample: `BinPacker.pack` never checks that a part fits the
stock sheet; the `150 × 50` part is anchored at `(0, 0)` on the `100 × 100`
sheet and extends 50 units beyond its right edge. -/
theorem pack_out_of_bounds_cex :
    ∃ r ∈ pack [partC2] [stockC2], r.stock_name = stockC2.name ∧
      stockC2.width < r.x + r.width := by
  decide

end BPH

namespace GCL

/-- C6 counterexample: the fit test `can_fit` accepts a `40 × 40` part in a
`45 × 45` region although the claimed gap-reserving test
`part_w + gap <= region.w and part_h + gap <= region.h` (gap 10) rejects it
in both orientations — the gap is not part of the fit test. -/
theorem can_fit_ignores_gap_cex :
    can_fit partC6 spC6 = true ∧
    ¬ ((partC6.length + 10 ≤ spC6.2.2.1 ∧ partC6.height + 10 ≤ spC6.2.2.2) ∨
       (partC6.height + 10 ≤ spC6.2.2.1 ∧ partC6.length + 10 ≤ spC6.2.2.2)) := by
  decide

/-- C6 (amended): the fit test ignores the gap (a part fits a region whenever
its raw dimensions fit, in either orientation); the gap is reserved instead
when the two remainder regions are carved after a placement, which start
`gap` beyond the placed rectangle.  Consequently scenario E holds: with
gap 10, two `40 × 40` parts on a `100 × 100` sheet are placed at `(0, 0)` and
`(50, 0)` — the second anchor's x-coordinate is 50, not 40. -/
theorem gap_scenario_layout :
    calculate_layout 1 [p40, p40] [(100, 100)] 10 = some [sheetE] := by
  have hpack : packStock (100, 100) 10 [p40, p40] = sheetE := by decide
  have hsum : ((sheetE.placements.map (fun p => p.part.length * p.part.height)).sum : Int) = 3200 := by
    decide
  have hutil : (0 : ℚ) < sheetUtil sheetE := by
    rw [sheetUtil, hsum]
    norm_num [sheetE]
  have hchoose : (chooseBest 10 [p40, p40] [(100, 100)]).1 = some sheetE := by
    simp only [chooseBest, List.foldl_cons, List.foldl_nil, hpack]
    rw [if_pos hutil]
  show layoutLoop [(100, 100)] 10 (0 + 1) [p40, p40] [] = some [sheetE]
  simp only [layoutLoop, hchoose]
  decide

end GCL

namespace BP2D

theorem group_fold_inv : ∀ (l : List DSheet)
    (acc : List (Finset (Int × Int × Bool) × DSheet × Nat)) (prev : List DSheet),
    (∀ e ∈ acc, e.1 = signature e.2.1 ∧
      e.2.2 = prev.countP (fun t => decide (signature t = e.1))) →
    (∀ k, (∀ e ∈ acc, e.1 ≠ k) → prev.countP (fun t => decide (signature t = k)) = 0) →
    ∀ e ∈ l.foldl groupStep acc,
      e.1 = signature e.2.1 ∧
      e.2.2 = (prev ++ l).countP (fun t => decide (signature t = e.1)) := by
  intro l
  induction l with
  | nil =>
    intro acc prev h1 _ e he
    simpa using h1 e he
  | cons sheet rest ih =>
    intro acc prev h1 h2 e he
    rw [List.foldl_cons] at he
    have h1' : ∀ e ∈ groupStep acc sheet, e.1 = signature e.2.1 ∧
        e.2.2 = (prev ++ [sheet]).countP (fun t => decide (signature t = e.1)) := by
      intro e' he'
      unfold groupStep at he'
      by_cases hany : acc.any (fun e => decide (e.1 = signature sheet)) = true
      · rw [if_pos hany] at he'
        obtain ⟨e0, he0, hfe⟩ := List.mem_map.mp he'
        obtain ⟨hs0, hc0⟩ := h1 e0 he0
        by_cases hk : e0.1 = signature sheet
        · rw [if_pos hk] at hfe
          rw [← hfe]
          refine ⟨hs0, ?_⟩
          rw [List.countP_append]
          have hd : decide (signature sheet = e0.1) = true := by simp [hk]
          simp [List.countP_cons, hd, ← hc0]
        · rw [if_neg hk] at hfe
          rw [← hfe]
          refine ⟨hs0, ?_⟩
          rw [List.countP_append]
          have hd : decide (signature sheet = e0.1) = false := by
            simp only [decide_eq_false_iff_not]
            exact fun h => hk h.symm
          simp [List.countP_cons, hd, ← hc0]
      · rw [if_neg hany] at he'
        rcases List.mem_append.mp he' with hin | hnew
        · obtain ⟨hs0, hc0⟩ := h1 e' hin
          have hne : e'.1 ≠ signature sheet := by
            intro hcontra
            exact hany (List.any_eq_true.mpr ⟨e', hin, by simp [hcontra]⟩)
          refine ⟨hs0, ?_⟩
          rw [List.countP_append]
          have hd : decide (signature sheet = e'.1) = false := by
            simp only [decide_eq_false_iff_not]
            exact fun h => hne h.symm
          simp [List.countP_cons, hd, ← hc0]
        · have he2 : e' = (signature sheet, sheet, 1) := by simpa using hnew
          rw [he2]
          refine ⟨rfl, ?_⟩
          rw [List.countP_append]
          have hzero : prev.countP (fun t => decide (signature t = signature sheet)) = 0 := by
            apply h2
            intro e0 he0 hcontra
            exact hany (List.any_eq_true.mpr ⟨e0, he0, by simp [hcontra]⟩)
          simp [List.countP_cons, hzero]
    have h2' : ∀ k, (∀ e ∈ groupStep acc sheet, e.1 ≠ k) →
        (prev ++ [sheet]).countP (fun t => decide (signature t = k)) = 0 := by
      intro k hk
      unfold groupStep at hk
      by_cases hany : acc.any (fun e => decide (e.1 = signature sheet)) = true
      · rw [if_pos hany] at hk
        have hkacc : ∀ e ∈ acc, e.1 ≠ k := by
          intro e0 he0
          have hmem := List.mem_map_of_mem
            (fun e => if e.1 = signature sheet then (e.1, e.2.1, e.2.2 + 1) else e) he0
          have hthis := hk _ hmem
          dsimp only at hthis
          by_cases hc : e0.1 = signature sheet
          · rw [if_pos hc] at hthis
            exact hthis
          · rw [if_neg hc] at hthis
            exact hthis
        obtain ⟨ew, hew, hewk⟩ := List.any_eq_true.mp hany
        have hks : signature sheet ≠ k := by
          have hw : ew.1 = signature sheet := of_decide_eq_true hewk
          intro hcontra
          exact hkacc ew hew (hw.trans hcontra)
        rw [List.countP_append]
        have hd : decide (signature sheet = k) = false := by
          simp only [decide_eq_false_iff_not]
          exact hks
        simp [List.countP_cons, hd, h2 k hkacc]
      · rw [if_neg hany] at hk
        have hkacc : ∀ e ∈ acc, e.1 ≠ k := fun e0 he0 => hk e0 (List.mem_append_left _ he0)
        have hks : signature sheet ≠ k := by
          have := hk (signature sheet, sheet, 1) (List.mem_append_right _ (by simp))
          simpa using this
        rw [List.countP_append]
        have hd : decide (signature sheet = k) = false := by
          simp only [decide_eq_false_iff_not]
          exact hks
        simp [List.countP_cons, hd, h2 k hkacc]
    have hres := ih (groupStep acc sheet) (prev ++ [sheet]) h1' h2' e he
    simpa [List.append_assoc] using hres

/-- C9 (amended): `group_sheets_by_layout` groups sheets by the SET of
`(length, height, rotated)` triples of their placements (`frozenset`, so
multiplicity-insensitive), and the count reported with each group's
representative sheet equals the number of input sheets whose signature set is
identical.  Sheets whose placements differ only in multiplicity share a
signature and ARE grouped together. -/
theorem group_counts_by_set_signature (layout : List DSheet) :
    ∀ p ∈ group_sheets_by_layout layout,
      p.2 = layout.countP (fun t => decide (signature t = signature p.1)) := by
  intro p hp
  obtain ⟨e, he, hpe⟩ := List.mem_map.mp hp
  obtain ⟨hs, hc⟩ := group_fold_inv layout [] []
    (by intro e he; exact absurd he (by simp))
    (by intro k _; simp) e he
  rw [← hpe]
  show e.2.2 = layout.countP (fun t => decide (signature t = signature e.2.1))
  rw [← hs]
  simpa using hc

/-- Witness for `group_counts_by_set_signature`: in a three-sheet layout the
group represented by `sheetA9` reports count 2, the number of sheets sharing
its signature set. -/
theorem group_counts_witness :
    ((sheetA9, 2) : DSheet × Nat).2 =
      List.countP (fun t => decide (signature t = signature ((sheetA9, 2) : DSheet × Nat).1))
        [sheetA9, sheetC9, sheetB9] :=
  group_counts_by_set_signature [sheetA9, sheetC9, sheetB9] (sheetA9, 2) (by decide)

/-- C9 counterexample: `sheetA9` (one `40 × 40` placement) and `sheetB9` (two
`40 × 40` placements) have different placement multisets but the same
`frozenset` signature, and the code groups them together with count 2 —
contradicting the claim that multiplicity-differing sheets are never grouped. -/
theorem grouping_multiplicity_cex :
    group_sheets_by_layout [sheetA9, sheetB9] = [(sheetA9, 2)] ∧
    sheetA9.placements.length ≠ sheetB9.placements.length := by
  decide

end BP2D

namespace GCOPT

theorem placePanel_places_one (stocks : List Stock) (cut_width : Int) :
    ∀ (fuel : Nat) (p : PanelInst) (st st' : OptState),
    placePanel stocks cut_width fuel p st = some (.ok st') →
    st'.placements.length = st.placements.length + 1 := by
  intro fuel
  induction fuel with
  | zero => intro p st st' h; exact absurd h (by simp [placePanel])
  | succ n ih =>
    intro p st st' h
    simp only [placePanel] at h
    split at h
    · simp at h
    · rename_i stock hidx
      split at h
      · simp only [Option.some.injEq, Except.ok.injEq] at h
        rw [← h]
        simp
      · split at h
        · exact (ih p _ st' h).trans rfl
        · split at h
          · split at h
            · simp at h
            · exact (ih p _ st' h).trans rfl
          · exact (ih p _ st' h).trans rfl

theorem goPanels_places_all (stocks : List Stock) (cut_width : Int) (fuel : Nat) :
    ∀ (ps : List PanelInst) (st st' : OptState),
    goPanels stocks cut_width fuel ps st = some (.ok st') →
    st'.placements.length = st.placements.length + ps.length := by
  intro ps
  induction ps with
  | nil =>
    intro st st' h
    simp only [goPanels, Option.some.injEq, Except.ok.injEq] at h
    rw [← h]
    simp
  | cons p rest ih =>
    intro st st' h
    simp only [goPanels] at h
    split at h
    · simp at h
    · simp at h
    · rename_i st1 heq
      have h1 := placePanel_places_one stocks cut_width fuel p st st1 heq
      have h2 := ih st1 st' h
      rw [h2, h1]
      simp only [List.length_cons]
      omega

theorem finalizeState_placements (stocks : List Stock) (st : OptState) :
    (finalizeState stocks st).placements = st.placements := by
  unfold finalizeState
  split
  · split
    · rfl
    · rfl
  · rfl

/-- C8 (amended): `GlassCuttingOptimizer.optimize` has no partial-result
channel — on stock exhaustion it raises
`ValueError("Not enough stock sheets available")` and returns nothing, and
whenever it does return a result, every expanded panel instance has been
placed (the placement count equals the expanded demand; there is no unplaced
list). -/
theorem ok_places_all (stocks : List Stock) (panels : List Panel) (cut_width : Int)
    (fuel : Nat) (r : OptResult)
    (h : optimize stocks panels cut_width fuel = some (.ok r)) :
    r.placements.length = (expandPanels panels).length := by
  simp only [optimize] at h
  split at h
  · simp at h
  · simp at h
  · rename_i st heq
    split at h
    · simp at h
    · simp only [Option.some.injEq, Except.ok.injEq] at h
      have h2 := goPanels_places_all stocks cut_width fuel
        ((expandPanels panels).insertionSort panelGe) ⟨0, 0, 0, 0, 0, [], initUsed stocks, 0, 0⟩ st heq
      rw [← h]
      show (finalizeState stocks st).placements.length = (expandPanels panels).length
      rw [finalizeState_placements, h2]
      simp [List.length_insertionSort]

/-- Witness for `ok_places_all`: both instances of the `50 × 50` panel are
placed on the `200 × 200` stock and the returned result records exactly the
expanded demand. -/
theorem ok_places_all_witness :
    optimize [stockW8] [panelW8] 5 4 = some (.ok resW8) ∧
    resW8.placements.length = (expandPanels [panelW8]).length :=
  ⟨by decide, ok_places_all [stockW8] [panelW8] 5 4 resW8 (by decide)⟩

/-- C8 counterexample: when the only stock type runs out while a panel
remains, `optimize` terminates with the `ValueError` message and no Solution —
it does not return a partial Solution plus an unplaced list as claimed. -/
theorem stock_exhausted_raises_cex :
    optimize [stockC8] [panelC8] 5 4 = some (.error "Not enough stock sheets available") := by
  decide

end GCOPT

namespace HGCO

/-- C10 (bug evidence): on a `1000 × 1000` stock sheet holding one
`1000 × 1000` piece — a perfectly packed sheet whose true utilization is
100% — the reported `utilization_percentage` is `100000000`, far above 100:
the numerator is a mm² area while `total_area` is in m².  The claim
`0 <= utilization_pct <= 100` fails (the unit mismatch is plainly a slip,
and the geometry-free `_optimize_single_sheet` can overfill a sheet even
with consistent units). -/
theorem utilization_exceeds_100 :
    ((optimize [stockC10] [pieceC10]).1.map (fun u => u.utilization_percentage)) =
      [100000000] ∧ ¬ ((100000000 : ℚ) ≤ 100) := by
  have heff : ((0 : ℚ), (Option.none : Option GlassPiece)).1 <
      ((pieceC10.length * pieceC10.height : Int) : ℚ) /
        ((stockC10.length * stockC10.width : Int) : ℚ) := by
    show (0 : ℚ) < ((1000 * 1000 : Int) : ℚ) / ((1000 * 1000 : Int) : ℚ)
    norm_num
  have hsel : selectBest stockC10 [pieceC10] = (some pieceC10,
      ((pieceC10.length * pieceC10.height : Int) : ℚ) /
        ((stockC10.length * stockC10.width : Int) : ℚ)) := by
    simp only [selectBest, List.foldl_cons, List.foldl_nil]
    rw [if_pos (by decide :
      (pieceC10.length ≤ stockC10.length ∧ pieceC10.height ≤ stockC10.width) ∨
      (pieceC10.height ≤ stockC10.length ∧ pieceC10.length ≤ stockC10.width))]
    rw [if_pos (by exact heff.trans_eq rfl)]
  have hcuts : optimize_single_sheet stockC10 [pieceC10] = [pieceC10] := by
    show singleSheetGo stockC10 (0 + 1) [pieceC10] [] = [pieceC10]
    simp only [singleSheetGo, hsel]
    rfl
  have hexp : (expandPieces [pieceC10]).insertionSort pieceGe = [pieceC10] := by decide
  constructor
  · simp only [optimize, hexp, List.foldl_cons, List.foldl_nil, hcuts]
    rw [if_neg (by decide : ¬ ([pieceC10].isEmpty = true))]
    simp only [List.nil_append, List.map_cons, List.map_nil, List.cons.injEq, and_true]
    show (((1000 * 1000 : Int) : ℚ) / stockC10.total_area) * 100 = 100000000
    norm_num [StockSheet.total_area, stockC10]
  · norm_num

end HGCO
